import Mathlib

/-!
# Verification of `improvebot/review.ts`

Shallow embedding of the skill-review orchestrator in
`src/improvebot/review.ts`, together with theorems about its behaviour:
the event-driven report extraction in `reviewSkill`, its session
lifecycle, the per-skill error isolation of `main`, the `--limit` flag
handling, `discoverSkills`, the GitHub-token selection and the dry-run
mode of publishing.
-/

set_option autoImplicit false

namespace ImproveBot

/-- The tagged event variants delivered to the `session.on` callback in
`reviewSkill` (review.ts lines 87-102).  `assistantMessage` carries an
optional content string (`event.data.content` may be null/undefined,
modelled as `none`). -/
inductive SessionEvent where
  | toolExecutionStart (toolName : String) (params : String)
  | toolExecutionEnd
  | assistantMessage (content : Option String)
  | idle
deriving DecidableEq, Repr

/-- The mutable state of the listener closure in `reviewSkill`:
`content` is the `let content = ""` variable (line 85); `resolved`
models the single-assignment promise cell `done` — `none` while the
promise is pending, `some r` once `resolve(r)` has taken effect
(a JavaScript promise ignores every later `resolve` call). -/
structure ListenerState where
  content : String
  resolved : Option String
deriving DecidableEq, Repr

/-- Initial listener state: empty working text, pending promise. -/
def initListener : ListenerState := { content := "", resolved := none }

/-- One step of the `session.on` callback (review.ts lines 87-102):
tool events only print diagnostics (no state change);
`assistant.message` overwrites `content` with `event.data.content ?? ""`;
`session.idle` calls `resolve(content)`, which latches the promise the
first time and is a no-op afterwards. -/
def handleEvent (s : ListenerState) (e : SessionEvent) : ListenerState :=
  match e with
  | .toolExecutionStart _ _ => s
  | .toolExecutionEnd => s
  | .assistantMessage c => { s with content := c.getD "" }
  | .idle =>
      match s.resolved with
      | some _ => s
      | none => { s with resolved := some s.content }

/-- The listener state after delivering a whole event sequence, in
emission order, to the freshly installed callback. -/
def runEvents (events : List SessionEvent) : ListenerState :=
  events.foldl handleEvent initListener

/-- Specification-side definition: the text of the last
`assistant.message` event of a sequence (its content with null mapped to
empty text), or empty text when no such event occurs. -/
def lastAssistantText (events : List SessionEvent) : String :=
  events.foldl
    (fun acc e =>
      match e with
      | .assistantMessage c => c.getD ""
      | _ => acc)
    ""

/-- Whether `e` is the `session.idle` event. -/
def isIdle (e : SessionEvent) : Bool :=
  match e with
  | .idle => true
  | _ => false

/-- Whether `e` is an `assistant.message` event. -/
def isAssistantMessage (e : SessionEvent) : Bool :=
  match e with
  | .assistantMessage _ => true
  | _ => false

/-- A directory entry as returned by `fs.readdir(..., {withFileTypes:
true})`: a name together with whether `e.isDirectory()` holds (only
these two fields matter to the filter in `discoverSkills`). -/
structure DirEntry where
  name : String
  isDirectory : Bool
deriving DecidableEq, Repr

/-- JavaScript `name.startsWith(".")`: the first character of the name
is a dot (false on the empty string, exactly as in JavaScript). -/
def nameStartsWithDot (s : String) : Bool := s.data.head? == some '.'

/-- The function `discoverSkills` (review.ts lines 63-68) applied to the entry list
of the root directory: keep the entries that are directories and whose
name does not start with a dot, and return their names. -/
def discoverSkills (entries : List DirEntry) : List String :=
  (entries.filter (fun e => e.isDirectory && !(nameStartsWithDot e.name))).map
    DirEntry.name

/-- The externally observable steps of one `reviewSkill` invocation, in
program order (review.ts lines 70-110): `createSession` (line 78),
`subscribe` (the `session.on` registration inside the `new Promise`
executor, line 87), `send` (line 105), `awaitDone` (line 106) and
`destroySession` (line 108). -/
inductive ReviewStep where
  | createSession
  | subscribe
  | send
  | awaitDone
  | destroySession
deriving DecidableEq, Repr

/-- How one `reviewSkill` invocation ends: the returned report, a raised
exception, or never (no `session.idle` event ever arrives, so `await
done` suspends forever). -/
inductive ReviewOutcome where
  | returned (report : String)
  | raised
  | hung
deriving DecidableEq, Repr

/-- The behaviour of the external session counterparty during one
`reviewSkill` call: whether `client.createSession` succeeds, whether
`session.send` succeeds, and the event sequence the session emits. -/
structure SessionBehavior where
  createOk : Bool
  sendOk : Bool
  events : List SessionEvent
deriving DecidableEq, Repr

/-- The control flow of `reviewSkill` (review.ts lines 70-110) as the
sequence of steps it performs and how it ends.  The function body is
straight-line `await`s with no try/finally: a rejected `createSession`
ends the call before anything else happens; a rejected `send` ends it
after the subscription, skipping `session.destroy`; otherwise the call
waits on the promise, which settles exactly when the event sequence
contains a `session.idle`, and only then destroys the session and
returns the latched report. -/
def reviewSkillRun (b : SessionBehavior) : List ReviewStep × ReviewOutcome :=
  if !b.createOk then ([.createSession], .raised)
  else if !b.sendOk then ([.createSession, .subscribe, .send], .raised)
  else
    match (runEvents b.events).resolved with
    | none => ([.createSession, .subscribe, .send, .awaitDone], .hung)
    | some r =>
        ([.createSession, .subscribe, .send, .awaitDone, .destroySession],
          .returned r)

/-- JavaScript truthiness of `process.env.X`: `undefined` (modelled
`none`) and the empty string are falsy, any other string is truthy. -/
def envTruthy (v : Option String) : Bool :=
  match v with
  | none => false
  | some s => !(s == "")

/-- JavaScript `a || b` on two environment-variable lookups: `a` if
truthy, otherwise `b`. -/
def jsOr (a b : Option String) : Option String :=
  if envTruthy a then a else b

/-- The credential actually supplied to `gh` by `createGitHubIssue`
(review.ts lines 118-119): `ghToken = process.env.GH_PAT ||
process.env.GH_TOKEN`, then a `GH_TOKEN="..."` assignment is prepended
to the command only when `ghToken` is truthy; `none` means no explicit
credential is supplied. -/
def selectedCredential (ghPat ghTokenVar : Option String) : Option String :=
  let ghToken := jsOr ghPat ghTokenVar
  if envTruthy ghToken then ghToken else none

/-- Specification-side definition of the words of C8: the first *present*
variable wins (`GH_PAT` if set, else `GH_TOKEN`, else nothing). -/
def specFirstPresent (ghPat ghTokenVar : Option String) : Option String :=
  ghPat <|> ghTokenVar

/-- Specification-side definition of the amended C8: the first variable
set to a non-empty string wins; variables that are unset or empty are
skipped. -/
def firstNonEmpty (ghPat ghTokenVar : Option String) : Option String :=
  (([ghPat, ghTokenVar].filterMap id).filter (fun s => !(s == ""))).head?

/-- The value of a decimal digit character, for `parseIntStr`. -/
def digitVal (c : Char) : Nat := c.toNat - 48

/-- JavaScript `parseInt(s, 10)` restricted to an actual string
argument: skip leading whitespace, read an optional sign, then the
longest prefix of decimal digits; `none` models `NaN` (no digits). -/
def parseIntStr (s : String) : Option Int :=
  let body := s.data.dropWhile Char.isWhitespace
  let signed : Bool × List Char :=
    match body with
    | '-' :: rest => (true, rest)
    | '+' :: rest => (false, rest)
    | _ => (false, body)
  let digits := signed.2.takeWhile Char.isDigit
  if digits.isEmpty then none
  else
    let n : Nat := digits.foldl (fun acc c => acc * 10 + digitVal c) 0
    some (if signed.1 then -(n : Int) else (n : Int))

/-- JavaScript `parseInt(v, 10)` where `v` is `args[limitIndex + 1]` and
may be `undefined`: `parseInt(undefined, 10)` parses the string
`"undefined"`, which is `NaN`. -/
def parseIntJS (v : Option String) : Option Int :=
  match v with
  | none => none
  | some s => parseIntStr s

/-- The value of the `limit` constant (review.ts lines 10-11): a finite
number, `NaN`, or `Infinity`. -/
inductive LimitVal where
  | num (n : Int)
  | nan
  | inf
deriving DecidableEq, Repr

/-- The constant `limit` (review.ts lines 10-11): `Infinity` when `--limit` does not
occur in the arguments, otherwise `parseInt` of the following argument
(`NaN`, modelled `.nan`, when that parse fails). -/
def limitOf (args : List String) : LimitVal :=
  match args.findIdx? (fun a => a == "--limit") with
  | none => .inf
  | some i =>
      match parseIntJS (args.get? (i + 1)) with
      | none => .nan
      | some n => .num n

/-- JavaScript `xs.slice(0, e)`: for a non-negative end take the first
`e` elements; for a negative end the slice stops `|e|` elements before
the end of the array. -/
def jsSliceTo (xs : List String) (e : Int) : List String :=
  if 0 ≤ e then xs.take e.toNat
  else xs.take (xs.length - (-e).toNat)

/-- The skill list `main` iterates over (review.ts lines 136-139): the
discovered skills, truncated by `skills.slice(0, limit)` only when
`limit < Infinity` holds — which is false for both `NaN` and
`Infinity`. -/
def limitedSkills (args : List String) (skills : List String) :
    List String :=
  match limitOf args with
  | .num n => jsSliceTo skills n
  | .nan => skills
  | .inf => skills

/-- Specification-side definition of the words of C6: "the first N skills"
for an integer N (none for a negative N). -/
def firstN (n : Int) (skills : List String) : List String :=
  skills.take n.toNat

/-- The observable actions of the per-skill loop body of `main` and of
`createGitHubIssue` (review.ts lines 112-128 and 146-166). -/
inductive RunAction where
  | reviewAttempt (skill : String)
  | reportPrinted (skill : String)
  | dryRunNote (skill : String)
  | ghInvoke (title : String) (body : String)
  | issueCreatedLog (skill : String)
  | failureLog (skill : String)
deriving DecidableEq, Repr

/-- What happens to one skill during the run: the outcome of
`reviewSkill` (a report, or a raised error message) and whether the
`gh issue create` subprocess exits successfully. -/
structure SkillOutcome where
  review : Except String String
  execOk : Bool

/-- The function `createGitHubIssue` (review.ts lines 112-128): always invokes
`gh issue create` with the title `Skill Review: <name>` and the report
as body; its own try/catch converts a failing subprocess into an error
log, so the function never throws. -/
def createGitHubIssue (skillName report : String) (execOk : Bool) :
    List RunAction :=
  .ghInvoke (String.append "Skill Review: " skillName) report ::
    (if execOk then [.issueCreatedLog skillName] else [.failureLog skillName])

/-- One iteration of the loop of `main` (review.ts lines 146-166): attempt
the review inside try/catch; on success print the report and either emit
the dry-run note or call `createGitHubIssue`; on a raised review error
log it and fall through to the next skill. -/
def processSkill (dryRun : Bool) (name : String) (oc : SkillOutcome) :
    List RunAction :=
  .reviewAttempt name ::
    (match oc.review with
     | .error _ => [.failureLog name]
     | .ok report =>
         .reportPrinted name ::
           (if dryRun then [.dryRunNote name]
            else createGitHubIssue name report oc.execOk))

/-- The whole loop of `main` over the (already limited) skill list, each
skill paired with its outcome. -/
def mainLoop (dryRun : Bool) (skills : List (String × SkillOutcome)) :
    List RunAction :=
  match skills with
  | [] => []
  | (n, oc) :: rest => processSkill dryRun n oc ++ mainLoop dryRun rest

/-- The skill name of a `reviewAttempt` action, `none` otherwise. -/
def attemptName (a : RunAction) : Option String :=
  match a with
  | .reviewAttempt n => some n
  | _ => none

/-- Whether an action is an external `gh` invocation. -/
def isGhInvoke (a : RunAction) : Bool :=
  match a with
  | .ghInvoke _ _ => true
  | _ => false

/-! ## Helper lemmas -/

theorem foldl_handleEvent_no_idle (pre : List SessionEvent) :
    ∀ s : ListenerState, (∀ e ∈ pre, isIdle e = false) →
      pre.foldl handleEvent s =
        { content := pre.foldl
            (fun acc e =>
              match e with
              | .assistantMessage c => c.getD ""
              | _ => acc) s.content,
          resolved := s.resolved } := by
  induction pre with
  | nil => intro s _; rfl
  | cons e rest ih =>
      intro s h
      have he : isIdle e = false := h e (List.mem_cons_self e rest)
      have hrest : ∀ e' ∈ rest, isIdle e' = false := fun e' h' =>
        h e' (List.mem_cons_of_mem e h')
      cases e with
      | toolExecutionStart n p => simpa using ih s hrest
      | toolExecutionEnd => simpa using ih s hrest
      | assistantMessage c =>
          simpa using ih { s with content := c.getD "" } hrest
      | idle => simp [isIdle] at he

theorem foldl_handleEvent_latched (rest : List SessionEvent) :
    ∀ (s : ListenerState) (v : String), s.resolved = some v →
      (rest.foldl handleEvent s).resolved = some v := by
  induction rest with
  | nil => intro s v h; simpa using h
  | cons e tail ih =>
      intro s v h
      cases e with
      | toolExecutionStart n p => exact ih s v h
      | toolExecutionEnd => exact ih s v h
      | assistantMessage c => exact ih { s with content := c.getD "" } v h
      | idle =>
          simp only [List.foldl_cons, handleEvent, h]
          exact ih s v h

theorem runEvents_resolved_first_idle (pre rest : List SessionEvent)
    (hpre : ∀ e ∈ pre, isIdle e = false) :
    (runEvents (pre ++ SessionEvent.idle :: rest)).resolved =
      some (lastAssistantText pre) := by
  unfold runEvents
  rw [List.foldl_append, foldl_handleEvent_no_idle pre initListener hpre]
  simp only [List.foldl_cons, handleEvent]
  exact foldl_handleEvent_latched rest _ _ rfl

theorem lastAssistantText_of_no_message (pre : List SessionEvent)
    (h : ∀ e ∈ pre, isAssistantMessage e = false) :
    lastAssistantText pre = "" := by
  unfold lastAssistantText
  induction pre with
  | nil => rfl
  | cons e rest ih =>
      have he := h e (List.mem_cons_self e rest)
      have hrest := fun e' h' => h e' (List.mem_cons_of_mem e h')
      cases e with
      | assistantMessage c => simp [isAssistantMessage] at he
      | toolExecutionStart n p => simpa using ih hrest
      | toolExecutionEnd => simpa using ih hrest
      | idle => simpa using ih hrest

/-! ## Claims -/

/-- C1: for every event sequence ending in exactly one `session.idle`,
the promise of `reviewSkill` resolves to the content text of the last
`assistant.message` event before the idle, and to empty text when no
`assistant.message` event occurred at all. -/
theorem reviewSkill_resolves_last_message (pre : List SessionEvent)
    (hpre : ∀ e ∈ pre, isIdle e = false) :
    (runEvents (pre ++ [SessionEvent.idle])).resolved =
        some (lastAssistantText pre) ∧
      ((∀ e ∈ pre, isAssistantMessage e = false) →
        (runEvents (pre ++ [SessionEvent.idle])).resolved = some "") := by
  have h1 := runEvents_resolved_first_idle pre [] hpre
  exact ⟨h1, fun hmsg => by
    rw [h1, lastAssistantText_of_no_message pre hmsg]⟩

theorem reviewSkill_resolves_last_message_witness :
    (runEvents ([SessionEvent.assistantMessage (some "report A"),
        SessionEvent.assistantMessage (some "report B")] ++
        [SessionEvent.idle])).resolved = some "report B" ∧
      (runEvents (([SessionEvent.toolExecutionEnd] : List SessionEvent) ++
        [SessionEvent.idle])).resolved = some "" := by
  constructor
  · rw [(reviewSkill_resolves_last_message
      [.assistantMessage (some "report A"), .assistantMessage (some "report B")]
      (by decide)).1]
    decide
  · exact (reviewSkill_resolves_last_message [SessionEvent.toolExecutionEnd]
      (by decide)).2 (by decide)

/-- C2: with several `session.idle` events the promise is resolved
exactly once, with the working report text as of the first idle: the
final resolved value after any continuation `rest` is still the text
latched at the first idle, and the idle handler is the identity on an
already-resolved state. -/
theorem reviewSkill_idempotent_resolution (pre rest : List SessionEvent)
    (hpre : ∀ e ∈ pre, isIdle e = false) :
    (runEvents (pre ++ SessionEvent.idle :: rest)).resolved =
        some (lastAssistantText pre) ∧
      (∀ (s : ListenerState) (v : String), s.resolved = some v →
        handleEvent s SessionEvent.idle = s) := by
  refine ⟨runEvents_resolved_first_idle pre rest hpre, ?_⟩
  intro s v h
  simp [handleEvent, h]

theorem reviewSkill_idempotent_resolution_witness :
    (runEvents ([SessionEvent.assistantMessage (some "first")] ++
        SessionEvent.idle ::
          [SessionEvent.assistantMessage (some "second"),
            SessionEvent.idle])).resolved = some "first" := by
  rw [(reviewSkill_idempotent_resolution
    [SessionEvent.assistantMessage (some "first")]
    [SessionEvent.assistantMessage (some "second"), SessionEvent.idle]
    (by decide)).1]
  decide

/-- C10: an `assistant.message` event with null/undefined content
overwrites the working report with empty text, so a trailing
content-less message before idle makes `reviewSkill` resolve to empty
text even when an earlier message carried text. -/
theorem null_content_clears_report (pre : List SessionEvent) (t : String)
    (hpre : ∀ e ∈ pre, isIdle e = false) :
    (∀ s : ListenerState,
        (handleEvent s (SessionEvent.assistantMessage none)).content = "") ∧
      (runEvents (pre ++ [SessionEvent.assistantMessage (some t),
          SessionEvent.assistantMessage none, SessionEvent.idle])).resolved =
        some "" := by
  constructor
  · intro s; rfl
  · have hpre2 : ∀ e ∈ pre ++ [SessionEvent.assistantMessage (some t),
        SessionEvent.assistantMessage none], isIdle e = false := by
      intro e he
      rcases List.mem_append.mp he with h | h
      · exact hpre e h
      · rcases List.mem_cons.mp h with rfl | h2
        · rfl
        · rcases List.mem_cons.mp h2 with rfl | h3
          · rfl
          · simp at h3
    have hlist : pre ++ [SessionEvent.assistantMessage (some t),
        SessionEvent.assistantMessage none, SessionEvent.idle] =
      (pre ++ [SessionEvent.assistantMessage (some t),
        SessionEvent.assistantMessage none]) ++ SessionEvent.idle :: [] := by
      rw [List.append_assoc]; rfl
    rw [hlist, runEvents_resolved_first_idle _ [] hpre2]
    have : lastAssistantText (pre ++ [SessionEvent.assistantMessage (some t),
        SessionEvent.assistantMessage none]) = "" := by
      simp [lastAssistantText, List.foldl_append]
    rw [this]

theorem null_content_clears_report_witness :
    (runEvents (([SessionEvent.toolExecutionEnd] : List SessionEvent) ++
        [SessionEvent.assistantMessage (some "earlier"),
          SessionEvent.assistantMessage none, SessionEvent.idle])).resolved =
      some "" :=
  (null_content_clears_report [SessionEvent.toolExecutionEnd] "earlier"
    (by decide)).2

/-- C3: `reviewSkill` has no try/finally, so when `session.send`
rejects, the call raises without ever reaching `session.destroy` — the
session created in that invocation is leaked.  On the success path (last
conjunct) the session is destroyed. -/
theorem reviewSkill_send_failure_skips_destroy :
    (reviewSkillRun
        { createOk := true, sendOk := false, events := [] }).2 =
        ReviewOutcome.raised ∧
      (reviewSkillRun
        { createOk := true, sendOk := false,
          events := [] }).1.contains ReviewStep.destroySession = false ∧
      (reviewSkillRun
        { createOk := true, sendOk := true,
          events := [SessionEvent.idle] }).1.contains
          ReviewStep.destroySession = true := by
  decide

/-- C4: in every run of `reviewSkill` that reaches `session.send`, the
`session.on` subscription was established at a strictly earlier step
than the send, so no event caused by the prompt can precede the active
subscription, and listening does not wait on the completion of the send. -/
theorem subscription_established_before_send (b : SessionBehavior)
    (h : ReviewStep.send ∈ (reviewSkillRun b).1) :
    ∃ i j, i < j ∧
      (reviewSkillRun b).1.get? i = some ReviewStep.subscribe ∧
      (reviewSkillRun b).1.get? j = some ReviewStep.send := by
  rcases b with ⟨co, so, evs⟩
  cases co with
  | false => simp [reviewSkillRun] at h
  | true =>
      cases so with
      | false =>
          exact ⟨1, 2, by omega, by simp [reviewSkillRun],
            by simp [reviewSkillRun]⟩
      | true =>
          cases hres : (runEvents evs).resolved with
          | none =>
              exact ⟨1, 2, by omega, by simp [reviewSkillRun, hres],
                by simp [reviewSkillRun, hres]⟩
          | some r =>
              exact ⟨1, 2, by omega, by simp [reviewSkillRun, hres],
                by simp [reviewSkillRun, hres]⟩

theorem subscription_established_before_send_witness :
    ∃ i j, i < j ∧
      (reviewSkillRun ⟨true, true, [SessionEvent.idle]⟩).1.get? i =
        some ReviewStep.subscribe ∧
      (reviewSkillRun ⟨true, true, [SessionEvent.idle]⟩).1.get? j =
        some ReviewStep.send :=
  subscription_established_before_send ⟨true, true, [SessionEvent.idle]⟩
    (by decide)

/-- Each loop iteration of `main` records exactly one review attempt,
whatever the outcome of the skill and the run mode. -/
theorem processSkill_attempts (d : Bool) (n : String) (oc : SkillOutcome) :
    (processSkill d n oc).filterMap attemptName = [n] := by
  rcases oc with ⟨rv, ex⟩
  cases rv <;> cases d <;> cases ex <;>
    simp [processSkill, createGitHubIssue, attemptName]

/-- The skills attempted by the loop of `main` are exactly the skills of the
sequence it iterates over, for every assignment of outcomes. -/
theorem mainLoop_attempt_names (d : Bool)
    (skills : List (String × SkillOutcome)) :
    (mainLoop d skills).filterMap attemptName = skills.map Prod.fst := by
  induction skills with
  | nil => rfl
  | cons p rest ih =>
      rcases p with ⟨n, oc⟩
      simp [mainLoop, List.filterMap_append, processSkill_attempts, ih]

/-- C5: the orchestrator loop attempts every skill of the sequence no
matter which reviews raise or which `gh` invocations fail (first
conjunct: the review attempts are exactly the skill sequence, for every
assignment of outcomes); a raised review error is converted to a failure
log (second conjunct), and so is a failing `gh` invocation during
publishing (third conjunct) — neither propagates out of the loop. -/
theorem orchestrator_isolates_skill_failures :
    (∀ (d : Bool) (skills : List (String × SkillOutcome)),
        (mainLoop d skills).filterMap attemptName = skills.map Prod.fst) ∧
      (∀ (d : Bool) (n msg : String) (ex : Bool),
        RunAction.failureLog n ∈
          processSkill d n { review := .error msg, execOk := ex }) ∧
      (∀ n report : String,
        RunAction.failureLog n ∈
          processSkill false n { review := .ok report, execOk := false }) := by
  refine ⟨fun d skills => mainLoop_attempt_names d skills, ?_, ?_⟩
  · intro d n msg ex
    simp [processSkill]
  · intro n report
    simp [processSkill, createGitHubIssue]

/-- C9: in dry-run mode the loop body performs no external `gh`
invocation for any skill and any outcome (including an empty report):
the `gh`-invocation actions of a dry-run iteration are none. -/
theorem dry_run_no_gh_invocation (n : String) (oc : SkillOutcome) :
    (processSkill true n oc).filter isGhInvoke = [] := by
  rcases oc with ⟨rv, ex⟩
  cases rv <;> simp [processSkill, isGhInvoke]

/-- C6 counterexample: with `--limit -1` and two discovered skills, the
code reviews the first skill (JavaScript `slice(0, -1)` drops from the
end), while "the first N skills" for N = -1 is the empty sequence — so
the universal statement of the claim over numeric N fails. -/
theorem limit_negative_counterexample :
    limitedSkills ["--limit", "-1"] ["alpha", "beta"] = ["alpha"] ∧
      firstN (-1) ["alpha", "beta"] = [] ∧
      (limitedSkills ["--limit", "-1"] ["alpha", "beta"] ==
        firstN (-1) ["alpha", "beta"]) = false := by
  decide

/-- C6 (amended): for a *non-negative* numeric limit N the orchestrator
reviews exactly the first N skills (for negative N the JavaScript slice
instead drops skills from the end); an absent or non-numeric limit
leaves the whole discovered sequence to be processed, without error.
The last conjunct is the concrete instance: limit 1, two skills, one
review. -/
theorem limit_flag_behavior (args skills : List String) (n : Int) :
    (limitOf args = .num n → 0 ≤ n →
        limitedSkills args skills = firstN n skills) ∧
      (limitOf args = .num n → 0 ≤ n → ∀ (d : Bool) (oc : String → SkillOutcome),
        (mainLoop d ((limitedSkills args skills).map
          (fun s => (s, oc s)))).filterMap attemptName = firstN n skills) ∧
      (limitOf args = .nan → limitedSkills args skills = skills) ∧
      (limitOf args = .inf → limitedSkills args skills = skills) ∧
      (args.findIdx? (fun a => a == "--limit") = none →
        limitedSkills args skills = skills) ∧
      limitedSkills ["--limit", "1"] ["alpha", "beta"] = ["alpha"] := by
  have hnum : limitOf args = .num n → 0 ≤ n →
      limitedSkills args skills = firstN n skills := by
    intro h hn
    simp [limitedSkills, h, jsSliceTo, hn, firstN]
  refine ⟨hnum, ?_, ?_, ?_, ?_, by decide⟩
  · intro h hn d oc
    rw [mainLoop_attempt_names, List.map_map]
    have hid : (Prod.fst ∘ fun s => (s, oc s)) = id := rfl
    rw [hid, List.map_id]
    exact hnum h hn
  · intro h; simp [limitedSkills, h]
  · intro h; simp [limitedSkills, h]
  · intro h; simp [limitedSkills, limitOf, h]

theorem limit_flag_behavior_witness :
    limitedSkills ["--limit", "1"] ["alpha", "beta"] =
      firstN 1 ["alpha", "beta"] :=
  (limit_flag_behavior ["--limit", "1"] ["alpha", "beta"] 1).1
    (by decide) (by decide)

/-- C7: `discoverSkills` returns exactly the names of the immediate
subdirectory entries whose name does not begin with a dot (membership
characterization), and on the root `{.git, alpha, beta}` with all three
directories it returns `["alpha", "beta"]`. -/
theorem discoverSkills_filters_hidden_and_files :
    (∀ (entries : List DirEntry) (s : String),
        s ∈ discoverSkills entries ↔
          ∃ e ∈ entries, e.isDirectory = true ∧
            nameStartsWithDot e.name = false ∧ e.name = s) ∧
      discoverSkills [⟨".git", true⟩, ⟨"alpha", true⟩, ⟨"beta", true⟩] =
        ["alpha", "beta"] := by
  constructor
  · intro entries s
    simp only [discoverSkills, List.mem_map, List.mem_filter,
      Bool.and_eq_true, Bool.not_eq_true']
    constructor
    · rintro ⟨e, ⟨he, hd, hdot⟩, rfl⟩
      exact ⟨e, he, hd, hdot, rfl⟩
    · rintro ⟨e, he, hd, hdot, rfl⟩
      exact ⟨e, ⟨he, hd, hdot⟩, rfl⟩
  · decide

/-- C8 counterexample: with `GH_PAT` set to the empty string and
`GH_TOKEN` set to a token, the code supplies the `GH_TOKEN` value (the
JavaScript `||` skips the falsy empty string), while "first present
wins" would select the empty `GH_PAT` value. -/
theorem credential_empty_override_counterexample :
    selectedCredential (some "") (some "ambient-token") =
        some "ambient-token" ∧
      specFirstPresent (some "") (some "ambient-token") = some "" ∧
      (selectedCredential (some "") (some "ambient-token") ==
        specFirstPresent (some "") (some "ambient-token")) = false := by
  decide

/-- C8 (amended): the credential supplied to `gh` is the first of
`GH_PAT`, `GH_TOKEN` that is set to a *non-empty* string (a variable
that is unset or set to the empty string is skipped); when neither
qualifies, no explicit credential is supplied. -/
theorem credential_first_nonempty_wins (ghPat ghTokenVar : Option String) :
    selectedCredential ghPat ghTokenVar = firstNonEmpty ghPat ghTokenVar := by
  rcases ghPat with _ | p
  · rcases ghTokenVar with _ | t
    · rfl
    · by_cases h : t = "" <;>
        simp [selectedCredential, firstNonEmpty, jsOr, envTruthy, h]
  · rcases ghTokenVar with _ | t
    · by_cases h : p = "" <;>
        simp [selectedCredential, firstNonEmpty, jsOr, envTruthy, h]
    · by_cases hp : p = "" <;> by_cases ht : t = "" <;>
        simp [selectedCredential, firstNonEmpty, jsOr, envTruthy, hp, ht]

end ImproveBot
